import Mathlib

/-!
Verification development for the EVM balance checker (`main.py`).

The Python source is shallowly embedded: pure fragments become Lean
functions, the mutable per-network rotation cursor and rate-limit
timestamp become explicitly threaded state, network I/O becomes an
environment parameter mapping each attempt to a response, and every
Python exception path is modelled with `Option` (`none` = the operation
raised).  Machine arithmetic: Python integers are `Nat`/`Int`,
`decimal.Decimal` amounts are `ℚ` together with an explicit model of the
default-context rounding (28 significant digits, half-even).
-/

/-- Lowercases every character of a string; models Python `str.lower()`
for the ASCII strings compared by the source. -/
def pyLower (s : String) : String :=
  String.mk (s.data.map Char.toLower)

/-- Boolean test that `pat` occurs at the start of `l`. -/
def leadsWith : List Char → List Char → Bool
  | [], _ => true
  | _ :: _, [] => false
  | a :: as, b :: bs => a == b && leadsWith as bs

/-- Boolean test that `pat` occurs as a contiguous run inside `l`. -/
def hasSubstrL (pat : List Char) : List Char → Bool
  | [] => pat.isEmpty
  | c :: cs => leadsWith pat (c :: cs) || hasSubstrL pat cs

/-- Models Python `needle in hay` for strings (substring containment). -/
def strHasSubstr (hay needle : String) : Bool :=
  hasSubstrL needle.data hay.data

/-- Models Python `str.strip()`: removes leading and trailing whitespace. -/
def pyStrip (s : String) : String :=
  String.mk (((s.data.dropWhile Char.isWhitespace).reverse.dropWhile
    Char.isWhitespace).reverse)

/-- Value of one hexadecimal digit, `none` for a non-digit. -/
def hexDigitVal (c : Char) : Option Nat :=
  if '0' ≤ c ∧ c ≤ '9' then some (c.toNat - '0'.toNat)
  else if 'a' ≤ c ∧ c ≤ 'f' then some (c.toNat - 'a'.toNat + 10)
  else if 'A' ≤ c ∧ c ≤ 'F' then some (c.toNat - 'A'.toNat + 10)
  else none

/-- Accumulating hexadecimal parse of a digit run. -/
def parseHexDigitsAux : List Char → Nat → Option Nat
  | [], acc => some acc
  | c :: cs, acc =>
    match hexDigitVal c with
    | some d => parseHexDigitsAux cs (acc * 16 + d)
    | none => none

/-- Models Python `int(s, 16)` (line 142 of `main.py`) for the unsigned,
optionally `0x`/`0X`-prefixed hexadecimal strings delivered in the RPC
`result` field; `none` models the `ValueError` raised on a malformed
string. -/
def pythonIntHex (s : String) : Option Nat :=
  let cs := (pyStrip s).data
  let digits :=
    match cs with
    | '0' :: x :: rest => if x = 'x' ∨ x = 'X' then rest else cs
    | _ => cs
  match digits with
  | [] => none
  | _ => parseHexDigitsAux digits 0

/-- Rounds a rational to the nearest integer, ties to the even integer
(banker's rounding, Python decimal `ROUND_HALF_EVEN`). -/
def roundHalfEven (q : ℚ) : ℤ :=
  let f := ⌊q⌋
  let r := q - f
  if r < 1 / 2 then f
  else if 1 / 2 < r then f + 1
  else if f % 2 = 0 then f else f + 1

/-- Models `Decimal(a) / Decimal(10**18)` (line 143 of `main.py`) under
Python's default decimal context: the true quotient is returned exactly
when it fits in 28 significant digits and is otherwise rounded to 28
significant digits with `ROUND_HALF_EVEN`.  For `a ≠ 0` the quotient
`a / 10^18` has `Nat.log 10 a + 1` significant digits, so the exact
branch applies iff `Nat.log 10 a ≤ 27`. -/
def pyDecDivPow18 (a : Nat) : ℚ :=
  if a = 0 then 0
  else
    let lg := Nat.log 10 a
    if lg ≤ 27 then (a : ℚ) / 10 ^ 18
    else ((roundHalfEven ((a : ℚ) / 10 ^ (lg - 27)) : ℚ) * 10 ^ (lg - 27)) / 10 ^ 18

/-- Embeds the `NetworkBalance` dataclass of `main.py`. -/
structure NetworkBalance where
  network : String
  balance : ℚ
  token : String
deriving DecidableEq

/-- Embeds the `WalletBalances` class: an address together with the
ordered balance entries appended by `add_balance`. -/
structure WalletBalances where
  address : String
  balances : List NetworkBalance
deriving DecidableEq

/-- Embeds the `BalanceReport` class: the wallets appended by
`add_wallet`, in append order. -/
structure BalanceReport where
  wallets : List WalletBalances
deriving DecidableEq

/-- Embeds `get_next_rpc` for one network.  The mutable
`current_rpc_index[network]` entry is the explicit `cursor` argument
(the Python default of a missing key is cursor `0`).  Returns the
endpoint at the pre-advance cursor together with the advanced cursor
`(cursor + 1) % len`, exactly as lines 77-89 of `main.py`.  Python
raises `ZeroDivisionError` on an empty endpoint list; theorems
therefore assume a non-empty list, under which the cursor stays in
range and `List.getD` never takes its default. -/
def get_next_rpc (rpcList : List String) (cursor : Nat) : String × Nat :=
  (rpcList.getD cursor "", (cursor + 1) % rpcList.length)

/-- Iterates `get_next_rpc` the given number of times from a cursor,
collecting the returned endpoint URLs in call order together with the
final cursor. -/
def rotorRun (rpcList : List String) : Nat → Nat → List String × Nat
  | cursor, 0 => ([], cursor)
  | cursor, k + 1 =>
    let fst := get_next_rpc rpcList cursor
    let rest := rotorRun rpcList fst.2 k
    (fst.1 :: rest.1, rest.2)

/-- Shape of the JSON body the source inspects: an object carrying an
`error` field (with `msg` the Python `str()` of it), an object with no
`error` but a string `result` field, or anything else (on which the
source's `result["result"]` access raises and is caught). -/
inductive JsonVal where
  | withErr (msg : String)
  | withRes (res : String)
  | other
deriving DecidableEq

/-- One HTTP response as the source observes it: status code, body text
(only its lowercased form is inspected, for the substring check), and
the decoded JSON (`none` models `response.json()` raising). -/
structure RpcResponse where
  status : Nat
  text : String
  json : Option JsonVal
deriving DecidableEq

/-- What one loop iteration of `get_balance_for_network` does after the
POST: return a parsed balance, rotate to the next RPC and consume a
retry, or consume a retry while keeping the same URL. -/
inductive AttemptStep where
  | success (amount : ℚ)
  | rotate
  | stay
deriving DecidableEq

/-- Classifies one attempt of `get_balance_for_network` (lines 107-153
of `main.py`).  The argument is the outcome of `session.post` for this
attempt, `none` modelling a transport exception (timeout, connection
failure).  `rotate` covers every path that reaches `get_next_rpc`: the
429/rate-limit-text branch, the JSON-RPC error branch (both the
rate-text sub-branch and the raised `RPC Error`, which the `except`
catches and rotates), a `json()`/`int(...,16)`/key-access exception,
and a status ≥ 400 raised by `raise_for_status` — the source rotates on
all of them.  `stay` is the silent fall-through for a non-200 status
below 400 with no rate-limit text: `raise_for_status` is a no-op and
the loop retries the same URL. -/
def classifyAttempt (post : Option RpcResponse) : AttemptStep :=
  match post with
  | none => AttemptStep.rotate
  | some r =>
    if r.status == 429 || strHasSubstr (pyLower r.text) "rate limit" then
      AttemptStep.rotate
    else if r.status == 200 then
      match r.json with
      | some (JsonVal.withErr _) => AttemptStep.rotate
      | some (JsonVal.withRes res) =>
        match pythonIntHex res with
        | some n => AttemptStep.success (pyDecDivPow18 n)
        | none => AttemptStep.rotate
      | some JsonVal.other => AttemptStep.rotate
      | none => AttemptStep.rotate
    else if 400 ≤ r.status then AttemptStep.rotate
    else AttemptStep.stay

/-- Boolean form of the source's rate-limit test on a response
(line 126): HTTP 429, or the body text containing a rate-limit
indicator. -/
def indicatesRateLimit (post : Option RpcResponse) : Bool :=
  match post with
  | none => false
  | some r => r.status == 429 || strHasSubstr (pyLower r.text) "rate limit"

/-- Result of one `get_balance_for_network` call: the returned amount,
the URLs actually POSTed in attempt order, and the final rotation
cursor. -/
structure FetchOutcome where
  amount : ℚ
  tried : List String
  cursor : Nat
deriving DecidableEq

/-- The retry loop of `get_balance_for_network`: `remaining` is the
unspent retry budget, `url` the current `rpc_url`, `cursor` the shared
rotation cursor, `attempt` the index fed to the environment.  On budget
exhaustion the source returns `Decimal(0)`. -/
def fetchGo (rpcList : List String) (env : Nat → String → Option RpcResponse) :
    Nat → String → Nat → Nat → FetchOutcome
  | 0, _, cursor, _ => ⟨0, [], cursor⟩
  | r + 1, url, cursor, attempt =>
    match classifyAttempt (env attempt url) with
    | AttemptStep.success v => ⟨v, [url], cursor⟩
    | AttemptStep.rotate =>
      let nxt := get_next_rpc rpcList cursor
      let rest := fetchGo rpcList env r nxt.1 nxt.2 (attempt + 1)
      ⟨rest.amount, url :: rest.tried, rest.cursor⟩
    | AttemptStep.stay =>
      let rest := fetchGo rpcList env r url cursor (attempt + 1)
      ⟨rest.amount, url :: rest.tried, rest.cursor⟩

/-- Embeds `get_balance_for_network` for one network: the retry budget
is `len(networks[network])` and the first attempt always posts to
`networks[network][0]` (line 105), not to the cursor's current
endpoint.  The session, semaphore and rate limiter do not affect the
returned value and are elided here; the rate limiter is modelled
separately.  On an empty endpoint list the Python function raises
`IndexError` at line 105; theorems assume a non-empty list. -/
def get_balance_for_network (rpcList : List String)
    (env : Nat → String → Option RpcResponse) (cursor : Nat) : FetchOutcome :=
  fetchGo rpcList env rpcList.length (rpcList.getD 0 "") cursor 0

/-- Embeds the symbol choice on line 181 of `main.py`:
`'BNB' if network == 'BSC' else ('POL' if network == 'Polygon' else 'ETH')`. -/
def coinSymbol (network : String) : String :=
  if network = "BSC" then "BNB"
  else if network = "Polygon" then "POL"
  else "ETH"

/-- Stands for the `f"Error: {str(e)}"` token recorded on the synthetic
ERROR entry (line 192); the exception text itself is not modelled. -/
def errorToken : String := "Error"

/-- Embeds the per-wallet body of `process_wallet_chunk` (lines
164-193).  `networksL` is `networks.keys()` in dict-iteration order.
`fetch address net` abstracts awaiting `get_balance_for_network` for
one network: `some q` is a returned amount and `none` models the
coroutine raising (which the source's `IndexError` on an empty endpoint
list is the only way to do), in which case `asyncio.gather` propagates
and the `except` branch records the single synthetic ERROR entry for
the raw (unstripped) wallet string.  On the normal path the balances
are appended by zipping `networks.items()` with the gathered results,
i.e. in configured-network order whatever the completion order. -/
def processOneWallet (networksL : List String)
    (fetch : String → String → Option ℚ) (wallet : String) : WalletBalances :=
  let address := pyStrip wallet
  let results := networksL.map (fun net => fetch address net)
  if results.all Option.isSome then
    { address := address
      balances := (networksL.zip results).map
        (fun p => ⟨p.1, (p.2).getD 0, coinSymbol p.1⟩) }
  else
    { address := wallet, balances := [⟨"ERROR", 0, errorToken⟩] }

/-- Embeds `process_wallet_chunk`: the wallets of a chunk are processed
sequentially and their results appended in order. -/
def process_wallet_chunk (networksL : List String)
    (fetch : String → String → Option ℚ) (chunk : List String) :
    List WalletBalances :=
  chunk.map (processOneWallet networksL fetch)

/-- Embeds `chunk_size = (len(wallets) + 4) // 5` (line 203). -/
def chunk_size (n : Nat) : Nat := (n + 4) / 5

/-- Successive `cs`-sized slices of a list; the fuel argument bounds the
recursion and is immaterial once it is at least the number of slices.
For `cs ≥ 1` this equals Python's
`[wallets[i:i + cs] for i in range(0, len(wallets), cs)]`. -/
def sliceChunks (cs : Nat) : Nat → List String → List (List String)
  | 0, _ => []
  | _, [] => []
  | fuel + 1, l => l.take cs :: sliceChunks cs fuel (l.drop cs)

/-- Embeds the chunk split on line 204 of `main.py`. -/
def wallet_chunks (wallets : List String) : List (List String) :=
  sliceChunks (chunk_size wallets.length) wallets.length wallets

/-- Embeds `evm_checker` (lines 198-223).  For the empty wallet list the
chunk size is `0` and Python's `range(0, 0, 0)` raises `ValueError`,
modelled by `none`.  Otherwise the chunk tasks are gathered in task
order (`asyncio.gather` preserves argument order, not completion
order) and their wallet lists appended into the report. -/
def evm_checker (networksL : List String)
    (fetch : String → String → Option ℚ) (wallets : List String) :
    Option BalanceReport :=
  if chunk_size wallets.length = 0 then none
  else
    some ⟨((wallet_chunks wallets).map
      (process_wallet_chunk networksL fetch)).flatten⟩

/-- Models `MIN_REQUEST_INTERVAL = 3.0` (line 49). -/
def MIN_REQUEST_INTERVAL : ℚ := 3

/-- Where one task inside `wait_for_rate_limit` stands: not yet run,
suspended in `asyncio.sleep` until `wake`, or returned after recording
its dispatch time. -/
inductive TaskPhase where
  | ready
  | sleeping (wake : ℚ)
  | done (dispatch : ℚ)
deriving DecidableEq

/-- Cooperative-scheduling state for callers of `wait_for_rate_limit`
on one network: the simulated clock, the shared
`last_request_time[network]` entry, and each task's phase. -/
structure RLSystem where
  clock : ℚ
  last : Option ℚ
  tasks : List TaskPhase
deriving DecidableEq

/-- Runs task `i` up to its next suspension point, embedding
`wait_for_rate_limit` (lines 91-98).  A `ready` task reads the shared
timestamp: if the elapsed time is below `MIN_REQUEST_INTERVAL` it
suspends in `asyncio.sleep` until `last + MIN_REQUEST_INTERVAL`
without having written anything (the read and the write are separated
by the `await`); otherwise it records the current time and returns.  A
sleeping task whose wake time has arrived records the current time and
returns — the source does not re-check the interval after waking.
Waking a task before its wake time, or running a finished task, is a
no-op. -/
def runTask (s : RLSystem) (i : Nat) : RLSystem :=
  match s.tasks.get? i with
  | some TaskPhase.ready =>
    (match s.last with
    | some t =>
      if s.clock - t < MIN_REQUEST_INTERVAL then
        { s with tasks := s.tasks.set i (TaskPhase.sleeping (t + MIN_REQUEST_INTERVAL)) }
      else
        { s with last := some s.clock, tasks := s.tasks.set i (TaskPhase.done s.clock) }
    | none =>
      { s with last := some s.clock, tasks := s.tasks.set i (TaskPhase.done s.clock) })
  | some (TaskPhase.sleeping w) =>
    if w ≤ s.clock then
      { s with last := some s.clock, tasks := s.tasks.set i (TaskPhase.done s.clock) }
    else s
  | _ => s

/-- A scheduler action: resume one task, or let the clock advance
(monotonically) to a given instant. -/
inductive RLAct where
  | run (i : Nat)
  | advanceTo (t : ℚ)

/-- One scheduler step over the rate-limiter state. -/
def rlStep (s : RLSystem) (a : RLAct) : RLSystem :=
  match a with
  | RLAct.run i => runTask s i
  | RLAct.advanceTo t => if s.clock ≤ t then { s with clock := t } else s

/-- Executes a schedule of scheduler actions from a state. -/
def rlExec (s : RLSystem) : List RLAct → RLSystem
  | [] => s
  | a :: rest => rlExec (rlStep s a) rest

/-- A two-endpoint configuration for one network, as in the spec's
failover scenario. -/
def rpcsAB : List String := ["rpcA", "rpcB"]

/-- A bare HTTP 429 response. -/
def resp429 : RpcResponse := ⟨429, "", none⟩

/-- A successful response whose JSON `result` field is the hexadecimal
base-unit value `0xDE0B6B3A7640000` (= 10^18, i.e. one token). -/
def respOk : RpcResponse := ⟨200, "", some (JsonVal.withRes "0xDE0B6B3A7640000")⟩

/-- Environment in which every request, to any endpoint, is answered
with HTTP 429. -/
def env429 : Nat → String → Option RpcResponse := fun _ _ => some resp429

/-- Environment of the spec's failover scenario: every request to the
first endpoint returns HTTP 429, the second endpoint answers with a
valid one-token balance. -/
def envFailover : Nat → String → Option RpcResponse := fun _ url =>
  if url = "rpcA" then some resp429 else some respOk

/-- Two concurrent callers of `wait_for_rate_limit` on one network: the
clock stands at 1 and the network's last dispatch was recorded at 0. -/
def rlInit : RLSystem := ⟨1, some 0, [TaskPhase.ready, TaskPhase.ready]⟩

/-- Schedule in which both tasks read the shared timestamp before
either records: both suspend, the clock reaches their common wake time,
and both resume. -/
def rlSchedule : List RLAct :=
  [RLAct.run 0, RLAct.run 1, RLAct.advanceTo 3, RLAct.run 0, RLAct.run 1]

/-- Rounding an integer changes nothing. -/
lemma roundHalfEven_intCast (n : ℤ) : roundHalfEven (n : ℚ) = n := by
  unfold roundHalfEven
  simp [Int.floor_intCast]

/-- Within 28 significant digits the modelled `Decimal` division is the
true quotient. -/
lemma pyDecDivPow18_exact (a : Nat) (h : a < 10 ^ 28) :
    pyDecDivPow18 a = (a : ℚ) / 10 ^ 18 := by
  unfold pyDecDivPow18
  by_cases h0 : a = 0
  · simp [h0]
  · have hlog : Nat.log 10 a ≤ 27 := by
      have := Nat.log_lt_of_lt_pow h0 h
      omega
    simp [h0, hlog]

/-- The one-token hex constant parses to 10^18 base units. -/
lemma pythonIntHex_oneToken :
    pythonIntHex "0xDE0B6B3A7640000" = some 1000000000000000000 := by decide

/-- One token in base units converts to the amount 1. -/
lemma pyDecDivPow18_oneToken : pyDecDivPow18 1000000000000000000 = 1 := by
  rw [pyDecDivPow18_exact 1000000000000000000 (by norm_num)]
  norm_num

/-- Concatenating the slices recovers the input list. -/
lemma sliceChunks_flatten (cs : Nat) (h : 1 ≤ cs) :
    ∀ fuel l, l.length ≤ fuel → (sliceChunks cs fuel l).flatten = l := by
  intro fuel
  induction fuel with
  | zero =>
    intro l hl
    have : l = [] := List.eq_nil_of_length_eq_zero (by omega)
    simp [this, sliceChunks]
  | succ f ih =>
    intro l hl
    cases l with
    | nil => simp [sliceChunks]
    | cons a t =>
      have hd : ((a :: t).drop cs).length ≤ f := by
        simp only [List.length_drop, List.length_cons]
        simp only [List.length_cons] at hl
        omega
      simp only [sliceChunks, List.flatten_cons, ih _ hd]
      exact List.take_append_drop cs (a :: t)

/-- The number of slices is the ceiling of the length divided by the
slice size. -/
lemma sliceChunks_length (cs : Nat) (h : 1 ≤ cs) :
    ∀ fuel l, l.length ≤ fuel →
      (sliceChunks cs fuel l).length = (l.length + cs - 1) / cs := by
  intro fuel
  induction fuel with
  | zero =>
    intro l hl
    have : l = [] := List.eq_nil_of_length_eq_zero (by omega)
    subst this
    simp [sliceChunks, Nat.div_eq_of_lt (show cs - 1 < cs by omega)]
  | succ f ih =>
    intro l hl
    cases l with
    | nil => simp [sliceChunks, Nat.div_eq_of_lt (show cs - 1 < cs by omega)]
    | cons a t =>
      have hd : ((a :: t).drop cs).length ≤ f := by
        simp only [List.length_drop, List.length_cons]
        simp only [List.length_cons] at hl
        omega
      simp only [sliceChunks, List.length_cons, ih _ hd, List.length_drop]
      rcases le_or_lt (t.length + 1) cs with hle | hlt
      · have h1 : t.length + 1 - cs = 0 := by omega
        have h2 : (0 + cs - 1) / cs = 0 := Nat.div_eq_of_lt (by omega)
        have hlo : 1 ≤ (t.length + 1 + cs - 1) / cs :=
          (Nat.one_le_div_iff (by omega)).mpr (by omega)
        have hhi : (t.length + 1 + cs - 1) / cs < 2 :=
          (Nat.div_lt_iff_lt_mul (by omega)).mpr (by omega)
        rw [h1, h2]
        omega
      · have h4 : t.length + 1 + cs - 1 = (t.length + 1 - cs + cs - 1) + cs := by
          omega
        rw [h4, Nat.add_div_right _ (by omega)]

/-- Every slice is non-empty and no longer than the slice size. -/
lemma sliceChunks_mem (cs : Nat) (h : 1 ≤ cs) :
    ∀ fuel l c, c ∈ sliceChunks cs fuel l → c ≠ [] ∧ c.length ≤ cs := by
  intro fuel
  induction fuel with
  | zero => intro l c hc; simp [sliceChunks] at hc
  | succ f ih =>
    intro l c hc
    cases l with
    | nil => simp [sliceChunks] at hc
    | cons a t =>
      simp only [sliceChunks, List.mem_cons] at hc
      rcases hc with hc | hc
      · subst hc
        constructor
        · simp only [ne_eq, List.take_eq_nil_iff]
          push_neg
          exact ⟨by omega, by simp⟩
        · simp only [List.length_take]
          omega
      · exact ih _ _ hc

/-- When every attempt classifies as a rotation, the loop spends the
whole budget and returns a zero amount. -/
lemma fetchGo_all_rotate (rpcList : List String)
    (env : Nat → String → Option RpcResponse)
    (hrot : ∀ i u, classifyAttempt (env i u) = AttemptStep.rotate) :
    ∀ r url cursor attempt,
      (fetchGo rpcList env r url cursor attempt).amount = 0 ∧
      (fetchGo rpcList env r url cursor attempt).tried.length = r := by
  intro r
  induction r with
  | zero => intro url cursor attempt; simp [fetchGo]
  | succ n ih =>
    intro url cursor attempt
    have h1 := ih (get_next_rpc rpcList cursor).1 (get_next_rpc rpcList cursor).2 (attempt + 1)
    simp [fetchGo, hrot, h1.1, h1.2]

/-- A response flagged as rate-limited takes the rotation branch. -/
lemma indicatesRateLimit_rotate (post : Option RpcResponse)
    (h : indicatesRateLimit post = true) :
    classifyAttempt post = AttemptStep.rotate := by
  cases post with
  | none => simp [indicatesRateLimit] at h
  | some r =>
    simp only [indicatesRateLimit] at h
    simp [classifyAttempt, h]

/-- From an in-range cursor, `k` consecutive rotator calls return the
`k` endpoints starting at the cursor and leave the cursor advanced by
`k` modulo the list length. -/
lemma rotorRun_segment (rpcList : List String) (hne : rpcList ≠ []) :
    ∀ k c, c + k ≤ rpcList.length → (c < rpcList.length ∨ c = 0) →
      rotorRun rpcList c k =
        ((rpcList.drop c).take k, (c + k) % rpcList.length) := by
  intro k
  induction k with
  | zero =>
    intro c hck hc
    rcases hc with hc | hc
    · simp [rotorRun, Nat.mod_eq_of_lt hc]
    · simp [rotorRun, hc]
  | succ n ih =>
    intro c hck hc
    have hlen : 0 < rpcList.length := List.length_pos.mpr hne
    have hclt : c < rpcList.length := by omega
    have hget : rpcList.getD c "" = rpcList[c] := List.getD_eq_getElem rpcList "" hclt
    have hdrop : rpcList.drop c = rpcList[c] :: rpcList.drop (c + 1) :=
      List.drop_eq_getElem_cons hclt
    rcases le_or_lt rpcList.length (c + 1) with hwrap | hlt
    · have hn0 : n = 0 := by omega
      have hc1 : c + 1 = rpcList.length := by omega
      subst hn0
      simp only [rotorRun, get_next_rpc, hget, hc1, Nat.mod_self]
      simp [hdrop, hc1]
    · have hmod : (c + 1) % rpcList.length = c + 1 := Nat.mod_eq_of_lt hlt
      have hrest := ih (c + 1) (by omega) (Or.inl hlt)
      simp only [rotorRun, get_next_rpc, hget, hmod, hrest]
      rw [hdrop]
      simp only [List.take_succ_cons]
      have harith : c + 1 + n = c + (n + 1) := by omega
      rw [harith]

/-- Mapping a function over a list zipped with its own image needs no
zip at all. -/
lemma zip_map_self {α β γ : Type} (g : α → β) (f : α × β → γ) :
    ∀ l : List α, (l.zip (l.map g)).map f = l.map (fun a => f (a, g a)) := by
  intro l
  induction l with
  | nil => rfl
  | cons a t ih => simp [ih]

/-- The normal path of `processOneWallet`: when every network fetch
returns a value, the wallet record carries the stripped address and one
entry per configured network, in configuration order. -/
lemma processOneWallet_ok (networksL : List String)
    (fetch : String → String → Option ℚ) (w : String)
    (h : ∀ net ∈ networksL, (fetch (pyStrip w) net).isSome = true) :
    processOneWallet networksL fetch w =
      { address := pyStrip w
        balances := networksL.map
          (fun net => ⟨net, (fetch (pyStrip w) net).getD 0, coinSymbol net⟩) } := by
  unfold processOneWallet
  have hall : (networksL.map (fun net => fetch (pyStrip w) net)).all Option.isSome = true := by
    rw [List.all_eq_true]
    intro o ho
    rcases List.mem_map.mp ho with ⟨net, hnet, rfl⟩
    exact h net hnet
  simp only [hall, if_pos]
  rw [zip_map_self]

/-- The exception path of `processOneWallet`: if some network fetch
raises, the wallet record carries the raw wallet string and the single
synthetic ERROR entry. -/
lemma processOneWallet_err (networksL : List String)
    (fetch : String → String → Option ℚ) (w : String)
    (h : ¬ ∀ net ∈ networksL, (fetch (pyStrip w) net).isSome = true) :
    processOneWallet networksL fetch w =
      { address := w, balances := [⟨"ERROR", 0, errorToken⟩] } := by
  unfold processOneWallet
  have hall : (networksL.map (fun net => fetch (pyStrip w) net)).all Option.isSome = false := by
    rw [Bool.eq_false_iff]
    intro hcon
    apply h
    intro net hnet
    exact List.all_eq_true.mp hcon _ (List.mem_map.mpr ⟨net, hnet, rfl⟩)
  simp [hall]

/-- C6: on a network with `N` endpoints and a fresh cursor, `N`
consecutive `get_next_rpc` calls return the `N` endpoint URLs in
configured-list order, each exactly once, and return the cursor to its
initial position, so the sequence then repeats (round-robin cycle). -/
theorem get_next_rpc_round_robin (rpcList : List String) (hne : rpcList ≠ []) :
    rotorRun rpcList 0 rpcList.length = (rpcList, 0) := by
  have h := rotorRun_segment rpcList hne rpcList.length 0 (by omega) (Or.inr rfl)
  simpa using h

/-- Witness for the round-robin theorem on a concrete three-endpoint
network. -/
theorem get_next_rpc_round_robin_witness :
    (["u1", "u2", "u3"] : List String) ≠ [] ∧
    rotorRun ["u1", "u2", "u3"] 0 3 = (["u1", "u2", "u3"], 0) :=
  ⟨by decide, get_next_rpc_round_robin ["u1", "u2", "u3"] (by decide)⟩

/-- C2 (amended): when every response indicates a rate limit, the fetch
for one `(address, network)` pair makes exactly `N` attempts for `N`
configured endpoints and returns a zero amount; no exception reaches
the caller (the embedding is total — every Python error path is a
caught, classified branch).  The attempts are however not one per
endpoint: see the counterexample below. -/
theorem fetch_rate_limited_exhaustion (rpcList : List String)
    (env : Nat → String → Option RpcResponse) (cursor : Nat)
    (hne : rpcList ≠ [])
    (hrl : ∀ i u, indicatesRateLimit (env i u) = true) :
    (get_balance_for_network rpcList env cursor).amount = 0 ∧
    (get_balance_for_network rpcList env cursor).tried.length = rpcList.length := by
  have hrot : ∀ i u, classifyAttempt (env i u) = AttemptStep.rotate :=
    fun i u => indicatesRateLimit_rotate _ (hrl i u)
  exact fetchGo_all_rotate rpcList env hrot rpcList.length _ cursor 0

/-- Witness for the exhaustion theorem: two endpoints, every response a
429, fresh cursor. -/
theorem fetch_rate_limited_exhaustion_witness :
    rpcsAB ≠ [] ∧ (∀ i u, indicatesRateLimit (env429 i u) = true) ∧
    (get_balance_for_network rpcsAB env429 0).amount = 0 ∧
    (get_balance_for_network rpcsAB env429 0).tried.length = rpcsAB.length :=
  ⟨by decide, fun _ _ => rfl,
    fetch_rate_limited_exhaustion rpcsAB env429 0 (by decide) (fun _ _ => rfl)⟩

/-- C2 counterexample to "one attempt per configured endpoint": with
two endpoints, a fresh rotation cursor and every response a 429, both
attempts go to the first endpoint and the second endpoint is never
attempted, because `get_balance_for_network` starts at
`networks[network][0]` while the first `get_next_rpc` call returns the
pre-advance cursor position, i.e. endpoint 0 again. -/
theorem fetch_attempts_skip_last_endpoint :
    indicatesRateLimit (env429 0 "rpcA") = true ∧
    indicatesRateLimit (env429 1 "rpcA") = true ∧
    (get_balance_for_network rpcsAB env429 0).tried = ["rpcA", "rpcA"] ∧
    "rpcB" ∉ (get_balance_for_network rpcsAB env429 0).tried := by
  refine ⟨rfl, rfl, by decide, by decide⟩

/-- C3 (code bug): in the spec's failover scenario — two endpoints,
every request to the first answered HTTP 429, the second answering a
valid one-token balance — the very first fetch on the network (fresh
cursor) posts to the first endpoint twice, exhausts its two-attempt
budget and returns a zero amount, never querying the second endpoint;
had the second endpoint been queried, its response would have parsed to
the balance 1. -/
theorem fetch_failover_first_fetch_returns_zero :
    get_balance_for_network rpcsAB envFailover 0 =
      { amount := 0, tried := ["rpcA", "rpcA"], cursor := 0 } ∧
    classifyAttempt (envFailover 0 "rpcB") = AttemptStep.success 1 := by
  constructor
  · decide
  · have h1 : classifyAttempt (envFailover 0 "rpcB") =
        AttemptStep.success (pyDecDivPow18 1000000000000000000) := rfl
    rw [h1, pyDecDivPow18_oneToken]

/-- C7 (amended): the hexadecimal balance converts by true division by
10^18 whenever the base-unit integer is below 10^28 (quotient within
the default decimal context's 28 significant digits); in particular the
hexadecimal value 0xDE0B6B3A7640000 (= 10^18) parses and converts to
exactly 1. -/
theorem conversion_exact_within_precision (a : Nat) (h : a < 10 ^ 28) :
    pyDecDivPow18 a = (a : ℚ) / 10 ^ 18 ∧
    pythonIntHex "0xDE0B6B3A7640000" = some 1000000000000000000 ∧
    pyDecDivPow18 1000000000000000000 = 1 :=
  ⟨pyDecDivPow18_exact a h, pythonIntHex_oneToken, pyDecDivPow18_oneToken⟩

/-- Witness for the conversion theorem at one token (10^18 base
units). -/
theorem conversion_exact_within_precision_witness :
    (1000000000000000000 : Nat) < 10 ^ 28 ∧
    (pyDecDivPow18 1000000000000000000 =
        ((1000000000000000000 : Nat) : ℚ) / 10 ^ 18 ∧
      pythonIntHex "0xDE0B6B3A7640000" = some 1000000000000000000 ∧
      pyDecDivPow18 1000000000000000000 = 1) :=
  ⟨by norm_num, conversion_exact_within_precision 1000000000000000000 (by norm_num)⟩

/-- C7 counterexample to "exact for any base-unit integer": the
quotient for 10^28 + 1 base units needs 29 significant digits, so the
default decimal context rounds it to 10^10 — not the true quotient
10^10 + 10^-18. -/
theorem conversion_rounds_29_digit_value :
    pyDecDivPow18 (10 ^ 28 + 1) = 10 ^ 10 ∧
    pyDecDivPow18 (10 ^ 28 + 1) ≠ ((10 ^ 28 + 1 : Nat) : ℚ) / 10 ^ 18 := by
  have hlog : Nat.log 10 (10 ^ 28 + 1) = 28 :=
    Nat.log_eq_of_pow_le_of_lt_pow (by norm_num) (by norm_num)
  have hq : ((10 ^ 28 + 1 : Nat) : ℚ) / 10 ^ (28 - 27) = 10 ^ 27 + 1 / 10 := by
    push_cast
    norm_num
  have hfloor : ⌊(10 ^ 27 + 1 / 10 : ℚ)⌋ = (10 ^ 27 : ℤ) := by
    rw [Int.floor_eq_iff]
    constructor
    · push_cast
      norm_num
    · push_cast
      norm_num
  have hround : roundHalfEven (10 ^ 27 + 1 / 10 : ℚ) = (10 ^ 27 : ℤ) := by
    unfold roundHalfEven
    rw [hfloor]
    push_cast
    norm_num
  have hmain : pyDecDivPow18 (10 ^ 28 + 1) = 10 ^ 10 := by
    unfold pyDecDivPow18
    rw [if_neg (by norm_num), hlog, if_neg (by norm_num), hq, hround]
    push_cast
    norm_num
  refine ⟨hmain, ?_⟩
  rw [hmain]
  intro hcon
  rw [eq_div_iff (by norm_num)] at hcon
  push_cast at hcon
  norm_num at hcon

/-- C9 (code bug): two tasks call `wait_for_rate_limit` for the same
network at clock 1, the network's last dispatch having been recorded at
clock 0.  Both read the shared timestamp before either writes (the
read and the write are separated by the `await asyncio.sleep`), both
compute the same wake time 3, and both record and dispatch at clock 3:
the two dispatches are 0 apart, violating the claimed
`MIN_REQUEST_INTERVAL` spacing, and the check/record pair is not
atomic. -/
theorem rate_limiter_interval_violation :
    rlExec rlInit rlSchedule =
      { clock := 3, last := some 3,
        tasks := [TaskPhase.done 3, TaskPhase.done 3] } ∧
    (3 : ℚ) - 3 < MIN_REQUEST_INTERVAL := by
  constructor
  · simp only [rlInit, rlSchedule, rlExec, rlStep, runTask, MIN_REQUEST_INTERVAL]
    norm_num
  · norm_num [MIN_REQUEST_INTERVAL]

/-- C10: on the empty address list `evm_checker` does not return an
empty report: the ceiling-division chunk size is 0 and Python's
`range(0, 0, 0)` raises `ValueError` (modelled by `none`). -/
theorem evm_checker_empty_input_raises (networksL : List String)
    (fetch : String → String → Option ℚ) :
    evm_checker networksL fetch [] = none ∧ chunk_size 0 = 0 :=
  ⟨rfl, rfl⟩

/-- C5 counterexample to "exactly 5 chunks for at least 5 addresses":
six addresses give a chunk size of ceiling(6/5) = 2 and therefore
ceiling(6/2) = 3 chunks, not 5. -/
theorem wallet_chunks_six_addresses_three_chunks :
    (5 : Nat) ≤ (["w1", "w2", "w3", "w4", "w5", "w6"] : List String).length ∧
    (wallet_chunks ["w1", "w2", "w3", "w4", "w5", "w6"]).length ≠ 5 ∧
    (wallet_chunks ["w1", "w2", "w3", "w4", "w5", "w6"]).length = 3 := by
  refine ⟨by decide, by decide, by decide⟩

/-- C5 (amended): for a non-empty input of `n` addresses the scheduler
slices consecutive chunks of size `cs = ceiling(n/5)`; this produces
`ceiling(n/cs)` chunks — at most 5, but possibly fewer even for
`n ≥ 5` — every chunk non-empty and of size at most `cs` (the last may
be shorter), and the chunks concatenate back to the input list. -/
theorem wallet_chunks_ceiling_partition (wallets : List String)
    (h : wallets ≠ []) :
    (wallet_chunks wallets).length =
      (wallets.length + chunk_size wallets.length - 1) /
        chunk_size wallets.length ∧
    (wallet_chunks wallets).length ≤ 5 ∧
    (∀ c ∈ wallet_chunks wallets,
      c ≠ [] ∧ c.length ≤ chunk_size wallets.length) ∧
    (wallet_chunks wallets).flatten = wallets := by
  have hn : 1 ≤ wallets.length := List.length_pos.mpr h
  have hcs : 1 ≤ chunk_size wallets.length := by
    unfold chunk_size
    omega
  have hcount :
      (wallet_chunks wallets).length =
        (wallets.length + chunk_size wallets.length - 1) /
          chunk_size wallets.length :=
    sliceChunks_length _ hcs _ _ le_rfl
  refine ⟨hcount, ?_, ?_, sliceChunks_flatten _ hcs _ _ le_rfl⟩
  · have h5 : wallets.length ≤ 5 * chunk_size wallets.length := by
      unfold chunk_size
      omega
    have hlt :
        (wallets.length + chunk_size wallets.length - 1) /
          chunk_size wallets.length < 6 :=
      (Nat.div_lt_iff_lt_mul (by omega)).mpr (by omega)
    omega
  · intro c hc
    exact sliceChunks_mem _ hcs _ _ c hc

/-- Witness for the chunk-partition theorem on a concrete two-address
input (one chunk of size one... sized by ceiling(2/5) = 1). -/
theorem wallet_chunks_ceiling_partition_witness :
    (["a", "b"] : List String) ≠ [] ∧
    ((wallet_chunks ["a", "b"]).length =
        ((["a", "b"] : List String).length +
            chunk_size (["a", "b"] : List String).length - 1) /
          chunk_size (["a", "b"] : List String).length ∧
      (wallet_chunks ["a", "b"]).length ≤ 5 ∧
      (∀ c ∈ wallet_chunks ["a", "b"],
        c ≠ [] ∧ c.length ≤ chunk_size (["a", "b"] : List String).length) ∧
      (wallet_chunks ["a", "b"]).flatten = ["a", "b"]) :=
  ⟨by decide, wallet_chunks_ceiling_partition ["a", "b"] (by decide)⟩

/-- Fetch behaviour returning the same amount for every (address,
network) pair; used to instantiate witnesses. -/
def fetchConst (q : ℚ) : String → String → Option ℚ := fun _ _ => some q

/-- Fetch behaviour whose coroutine always raises; used to instantiate
the error-path witness. -/
def fetchNone : String → String → Option ℚ := fun _ _ => none

/-- C1: for every non-empty input address list, `evm_checker` returns a
report whose wallet list is exactly the input list mapped through the
wallet resolver — one `WalletBalances` per input address, in input
order, so the wallet count equals the input count and no address is
dropped or duplicated (each entry's stored address is the stripped
input on the normal path and the raw input on the error path). -/
theorem evm_checker_one_wallet_per_address (networksL : List String)
    (fetch : String → String → Option ℚ) (wallets : List String)
    (h : wallets ≠ []) :
    ∃ report,
      evm_checker networksL fetch wallets = some report ∧
      report.wallets = wallets.map (processOneWallet networksL fetch) ∧
      report.wallets.length = wallets.length ∧
      ∀ w, (processOneWallet networksL fetch w).address = pyStrip w ∨
        (processOneWallet networksL fetch w).address = w := by
  have hn : 1 ≤ wallets.length := List.length_pos.mpr h
  have hcs1 : 1 ≤ chunk_size wallets.length := by
    unfold chunk_size
    omega
  have hflat : (wallet_chunks wallets).flatten = wallets :=
    sliceChunks_flatten _ hcs1 _ _ le_rfl
  have hchunkmap :
      (wallet_chunks wallets).map (process_wallet_chunk networksL fetch) =
        (wallet_chunks wallets).map
          (List.map (processOneWallet networksL fetch)) := rfl
  have hrep :
      ((wallet_chunks wallets).map
          (process_wallet_chunk networksL fetch)).flatten =
        wallets.map (processOneWallet networksL fetch) := by
    rw [hchunkmap, ← List.map_flatten, hflat]
  refine ⟨⟨wallets.map (processOneWallet networksL fetch)⟩, ?_, rfl, by simp, ?_⟩
  · unfold evm_checker
    rw [if_neg (by omega)]
    exact congrArg some (congrArg BalanceReport.mk hrep)
  · intro w
    by_cases hw : ∀ net ∈ networksL, (fetch (pyStrip w) net).isSome = true
    · left
      rw [processOneWallet_ok _ _ _ hw]
    · right
      rw [processOneWallet_err _ _ _ hw]

/-- Witness for the one-wallet-per-address theorem on a singleton
input. -/
theorem evm_checker_one_wallet_per_address_witness :
    (["x"] : List String) ≠ [] ∧
    ∃ report,
      evm_checker ["Ethereum"] (fetchConst 1) ["x"] = some report ∧
      report.wallets =
        (["x"] : List String).map (processOneWallet ["Ethereum"] (fetchConst 1)) ∧
      report.wallets.length = (["x"] : List String).length ∧
      ∀ w, (processOneWallet ["Ethereum"] (fetchConst 1) w).address = pyStrip w ∨
        (processOneWallet ["Ethereum"] (fetchConst 1) w).address = w :=
  ⟨by decide, evm_checker_one_wallet_per_address ["Ethereum"] (fetchConst 1) ["x"] (by decide)⟩

/-- C4: a wallet that completes normally carries exactly one balance
entry per configured network, in the configured iteration order — the
source zips `networks.items()` with the gathered amounts, and
`asyncio.gather` returns them in task order, so completion order never
affects the appended sequence. -/
theorem wallet_balances_network_order (networksL : List String)
    (fetch : String → String → Option ℚ) (w : String)
    (h : ∀ net ∈ networksL, (fetch (pyStrip w) net).isSome = true) :
    (processOneWallet networksL fetch w).balances =
      networksL.map
        (fun net => ⟨net, (fetch (pyStrip w) net).getD 0, coinSymbol net⟩) ∧
    (processOneWallet networksL fetch w).balances.map (fun b => b.network) =
      networksL ∧
    (processOneWallet networksL fetch w).balances.length = networksL.length := by
  rw [processOneWallet_ok networksL fetch w h]
  refine ⟨rfl, ?_, by simp⟩
  rw [List.map_map]
  have hcomp : ((fun b : NetworkBalance => b.network) ∘ fun net =>
      ({ network := net, balance := (fetch (pyStrip w) net).getD 0,
         token := coinSymbol net } : NetworkBalance)) = fun net => net := rfl
  rw [hcomp, List.map_id']

/-- Witness for the network-order theorem: two networks, every fetch
succeeding. -/
theorem wallet_balances_network_order_witness :
    (∀ net ∈ (["BSC", "Polygon"] : List String),
      (fetchConst 2 (pyStrip " w1 ") net).isSome = true) ∧
    ((processOneWallet ["BSC", "Polygon"] (fetchConst 2) " w1 ").balances =
        (["BSC", "Polygon"] : List String).map
          (fun net => ⟨net, (fetchConst 2 (pyStrip " w1 ") net).getD 0, coinSymbol net⟩) ∧
      (processOneWallet ["BSC", "Polygon"] (fetchConst 2) " w1 ").balances.map
        (fun b => b.network) = ["BSC", "Polygon"] ∧
      (processOneWallet ["BSC", "Polygon"] (fetchConst 2) " w1 ").balances.length =
        (["BSC", "Polygon"] : List String).length) :=
  ⟨by decide, wallet_balances_network_order ["BSC", "Polygon"] (fetchConst 2) " w1 " (by decide)⟩

/-- C8: every wallet record produced by a chunk either carries exactly
one balance entry per configured network in configuration order (a
fetch that exhausted its retries contributes its zero amount, never an
absent slot), or — when the wallet-level fan-out raised — the single
synthetic ERROR entry with amount 0. -/
theorem chunk_wallet_entry_counts (networksL : List String)
    (fetch : String → String → Option ℚ) (chunk : List String)
    (wb : WalletBalances)
    (h : wb ∈ process_wallet_chunk networksL fetch chunk) :
    (wb.balances.map (fun b => b.network) = networksL ∧
      wb.balances.length = networksL.length) ∨
    (wb.balances.map (fun b => (b.network, b.balance)) = [("ERROR", (0 : ℚ))] ∧
      wb.balances.length = 1) := by
  simp only [process_wallet_chunk] at h
  rcases List.mem_map.mp h with ⟨w, hw, rfl⟩
  by_cases hok : ∀ net ∈ networksL, (fetch (pyStrip w) net).isSome = true
  · left
    rw [processOneWallet_ok _ _ _ hok]
    refine ⟨?_, by simp⟩
    rw [List.map_map]
    have hcomp : ((fun b : NetworkBalance => b.network) ∘ fun net =>
        ({ network := net, balance := (fetch (pyStrip w) net).getD 0,
           token := coinSymbol net } : NetworkBalance)) = fun net => net := rfl
    rw [hcomp, List.map_id']
  · right
    rw [processOneWallet_err _ _ _ hok]
    exact ⟨rfl, rfl⟩

/-- Witness for the entry-count theorem at a wallet whose fan-out
raises. -/
theorem chunk_wallet_entry_counts_witness :
    (processOneWallet ["Ethereum"] fetchNone "w") ∈
      process_wallet_chunk ["Ethereum"] fetchNone ["w"] ∧
    (((processOneWallet ["Ethereum"] fetchNone "w").balances.map
          (fun b => b.network) = ["Ethereum"] ∧
        (processOneWallet ["Ethereum"] fetchNone "w").balances.length =
          (["Ethereum"] : List String).length) ∨
      ((processOneWallet ["Ethereum"] fetchNone "w").balances.map
          (fun b => (b.network, b.balance)) = [("ERROR", (0 : ℚ))] ∧
        (processOneWallet ["Ethereum"] fetchNone "w").balances.length = 1)) :=
  ⟨by decide, chunk_wallet_entry_counts ["Ethereum"] fetchNone ["w"] _ (by decide)⟩
